import Mathlib

/-!
Verification of the NousMD markdown core (script.js, second revision in the file):
`SecurityUtils.sanitizeUrl`, `MarkdownParser.parse` (the spec's `convertToHtml`) and
`SyntaxHighlighter.highlight`.  The JavaScript source is shallowly embedded over
`List Char`; each regex-`replace` pass is modelled by an executable scanner that
reproduces the JS regex engine's leftmost-match / advance-one-character behaviour
for the concrete patterns the source uses.
-/

/-- Character lists; the embedding works over `List Char` and converts to `String`
at the API boundary. -/
abbrev Chars := List Char

/-- The JavaScript `\s` character class (also used by `String.prototype.trim`). -/
def jsWs (c : Char) : Bool :=
  let n := c.toNat
  (n == 32) || (Nat.ble 9 n && Nat.ble n 13) || (n == 0xa0) || (n == 0x1680) ||
  (Nat.ble 0x2000 n && Nat.ble n 0x200a) || (n == 0x2028) || (n == 0x2029) ||
  (n == 0x202f) || (n == 0x205f) || (n == 0x3000) || (n == 0xfeff)

/-- Strip leading and trailing characters satisfying `p` (both-ends trim). -/
def stripEnds (p : Char → Bool) (s : Chars) : Chars :=
  ((s.dropWhile p).reverse.dropWhile p).reverse

/-- The backtick character (code point 96). -/
def backtickChar : Char := Char.ofNat 96

/-- JavaScript `String.prototype.trim`. -/
def jsTrim (s : Chars) : Chars := stripEnds jsWs s

/-- Split at the first occurrence of `pat`, returning the part before it and the
part after it; `none` when `pat` does not occur. -/
def splitFirst (pat : Chars) : Chars → Option (Chars × Chars)
  | [] => if pat.isEmpty then some ([], []) else none
  | c :: cs =>
    if pat.isPrefixOf (c :: cs) then some ([], (c :: cs).drop pat.length)
    else
      match splitFirst pat cs with
      | some (pre, post) => some (c :: pre, post)
      | none => none

/-- Whether `pat` occurs as a contiguous subsequence of `s`. -/
def containsSeq (pat s : Chars) : Bool := (splitFirst pat s).isSome

/-- JavaScript `String.prototype.replace(searchString, replacement)`: replace the
first occurrence only (the replacement is treated literally; the source never puts
a `$` pattern in the replacement strings it uses here). -/
def replaceFirst (pat repl s : Chars) : Chars :=
  match splitFirst pat s with
  | some (pre, post) => pre ++ repl ++ post
  | none => s

/-- JavaScript `String.prototype.split(separator)` with a string separator
(leftmost, non-overlapping); fueled, `fuel = s.length + 1` always suffices. -/
def splitSeqGo (sep : Chars) : Nat → Chars → List Chars
  | 0, s => [s]
  | fuel + 1, s =>
    match splitFirst sep s with
    | some (pre, post) => pre :: splitSeqGo sep fuel post
    | none => [s]

def splitSeq (sep s : Chars) : List Chars := splitSeqGo sep (s.length + 1) s

/-- Split on newline characters, JavaScript `text.split('\n')`. -/
def splitNl : Chars → List Chars
  | [] => [[]]
  | c :: cs =>
    if c = '\n' then [] :: splitNl cs
    else
      match splitNl cs with
      | h :: t => (c :: h) :: t
      | [] => [[c]]

/-- Join lines with newline, JavaScript `lines.join('\n')`. -/
def joinNl (ls : List Chars) : Chars := List.intercalate ['\n'] ls

/-- Stateless scanner modelling `text.replace(regex, fn)` for a pattern decided by
`tryM`: at each position the pattern either matches (consuming at least one
character, producing a capture `a` and the rest) and is replaced by `emit a`, or
the scanner emits one character and advances — exactly the JS engine's behaviour
for the source's patterns, whose character classes exclude their delimiters. -/
def scan0 {α : Type} (tryM : Chars → Option (α × Chars)) (emit : α → Chars) :
    Nat → Chars → Chars
  | _, [] => []
  | 0, s => s
  | fuel + 1, c :: cs =>
    match tryM (c :: cs) with
    | some (a, rest) => emit a ++ scan0 tryM emit fuel rest
    | none => c :: scan0 tryM emit fuel cs

/-- Stateful variant of `scan0`, for the extraction passes that also push into a
per-call context (`parseCodeBlocks`, `extractInlineFormats`). -/
def scanSt {α σ : Type} (tryM : Chars → Option (α × Chars))
    (emit : α → σ → Chars × σ) : Nat → Chars → σ → Chars × σ
  | _, [], st => ([], st)
  | 0, s, st => (s, st)
  | fuel + 1, c :: cs, st =>
    match tryM (c :: cs) with
    | some (a, rest) =>
      let (out, st1) := emit a st
      let (out2, st2) := scanSt tryM emit fuel rest st1
      (out ++ out2, st2)
    | none =>
      let (out2, st1) := scanSt tryM emit fuel cs st
      (c :: out2, st1)

/-- Scanner for the `/^.../gm` patterns: with the `m` flag, `^` anchors a match
only at position 0 or right after a newline; elsewhere the scanner just copies
characters. -/
def scanL {α : Type} (tryM : Chars → Option (α × Chars)) (emit : α → Chars) :
    Nat → Bool → Chars → Chars
  | _, _, [] => []
  | 0, _, s => s
  | fuel + 1, atStart, c :: cs =>
    if atStart then
      match tryM (c :: cs) with
      | some (a, rest) => emit a ++ scanL tryM emit fuel false rest
      | none => c :: scanL tryM emit fuel (c = '\n') cs
    else c :: scanL tryM emit fuel (c = '\n') cs

/-- The `\s+(.+)$` tail used by the header and list patterns, with the JS
backtracking semantics: `\s+` greedily takes the whitespace run; `(.+)` then
needs at least one non-newline character.  When everything after the whitespace
is gone, the regex backtracks and the last non-newline whitespace character (if
any, with at least one whitespace character still before it) becomes the
capture.  Returns the capture and the remainder after the whole match. -/
def wsPlusCapture (rest : Chars) : Option (Chars × Chars) :=
  let w := rest.takeWhile jsWs
  let m := rest.drop w.length
  if w.isEmpty then none
  else if !m.isEmpty then
    let content := m.takeWhile (· ≠ '\n')
    some (content, m.drop content.length)
  else
    let revRest := w.reverse.dropWhile (· = '\n')
    match revRest with
    | [] => none
    | x :: xs =>
      if xs.isEmpty then none
      else some ([x], (w.reverse.takeWhile (· = '\n')).reverse)

namespace SecurityUtils

/-- Whitelist of safe URL protocols (source line 680). -/
def SAFE_PROTOCOLS : List String := ["http:", "https:", "mailto:", "ftp:", "ftps:"]

def hexVal (c : Char) : Option Nat :=
  let n := c.toNat
  if 48 ≤ n ∧ n ≤ 57 then some (n - 48)
  else if 65 ≤ n ∧ n ≤ 70 then some (n - 55)
  else if 97 ≤ n ∧ n ≤ 102 then some (n - 87)
  else none

def contByte (n : Nat) : Bool := Nat.ble 0x80 n && Nat.ble n 0xbf

/-- One `%XY` escape group: two hex digits after a `%`. -/
def pctByte : Chars → Option (Nat × Chars)
  | '%' :: h1 :: h2 :: rest =>
    match hexVal h1, hexVal h2 with
    | some a, some b => some (16 * a + b, rest)
    | _, _ => none
  | _ => none

/-- JavaScript `decodeURIComponent`: literal characters pass through; each run of
`%XY` escapes is decoded as UTF-8 (strict: truncated sequences, stray
continuation bytes, overlong encodings and surrogate code points all throw a
`URIError`, modelled as `none`).  Fueled; `fuel = s.length` suffices since every
step consumes at least one character. -/
def pctDecodeGo : Nat → Chars → Option Chars
  | _, [] => some []
  | 0, _ => none
  | fuel + 1, s@(c :: cs) =>
    match pctByte s with
    | some (b, r1) =>
      if b < 0x80 then (Char.ofNat b :: ·) <$> pctDecodeGo fuel r1
      else if 0xc2 ≤ b ∧ b ≤ 0xdf then
        match pctByte r1 with
        | some (b2, r2) =>
          if contByte b2 then
            (Char.ofNat ((b - 0xc0) * 64 + (b2 - 0x80)) :: ·) <$> pctDecodeGo fuel r2
          else none
        | none => none
      else if 0xe0 ≤ b ∧ b ≤ 0xef then
        match pctByte r1 with
        | some (b2, r2) =>
          match pctByte r2 with
          | some (b3, r3) =>
            let lo2 : Nat := if b = 0xe0 then 0xa0 else 0x80
            let hi2 : Nat := if b = 0xed then 0x9f else 0xbf
            if (lo2 ≤ b2 ∧ b2 ≤ hi2) ∧ contByte b3 then
              (Char.ofNat ((b - 0xe0) * 4096 + (b2 - 0x80) * 64 + (b3 - 0x80)) :: ·) <$>
                pctDecodeGo fuel r3
            else none
          | none => none
        | none => none
      else if 0xf0 ≤ b ∧ b ≤ 0xf4 then
        match pctByte r1 with
        | some (b2, r2) =>
          match pctByte r2 with
          | some (b3, r3) =>
            match pctByte r3 with
            | some (b4, r4) =>
              let lo2 : Nat := if b = 0xf0 then 0x90 else 0x80
              let hi2 : Nat := if b = 0xf4 then 0x8f else 0xbf
              if (lo2 ≤ b2 ∧ b2 ≤ hi2) ∧ contByte b3 ∧ contByte b4 then
                (Char.ofNat ((b - 0xf0) * 262144 + (b2 - 0x80) * 4096 +
                    (b3 - 0x80) * 64 + (b4 - 0x80)) :: ·) <$> pctDecodeGo fuel r4
              else none
            | none => none
          | none => none
        | none => none
      else none
    | none =>
      if c = '%' then none
      else (c :: ·) <$> pctDecodeGo fuel cs

def pctDecode (s : Chars) : Option Chars := pctDecodeGo s.length s

/-- The character class `[\s\u0000-\u001F\u007F-\u009F]` stripped from both ends
of the normalized URL (source line 715). -/
def ctrlOrWs (c : Char) : Bool :=
  jsWs c || Nat.ble c.toNat 0x1f || (Nat.ble 0x7f c.toNat && Nat.ble c.toNat 0x9f)

def isSchemeTail (c : Char) : Bool :=
  let n := c.toNat
  (Nat.ble 97 n && Nat.ble n 122) || (Nat.ble 48 n && Nat.ble n 57) ||
  (n == 43) || (n == 46) || (n == 45)

/-- `cleaned.match(/^([a-z][a-z0-9+.-]*:)/)`: the protocol of the cleaned URL,
when it has one. -/
def protocolOf (cleaned : Chars) : Option Chars :=
  match cleaned with
  | [] => none
  | c :: rest =>
    if Nat.ble 97 c.toNat && Nat.ble c.toNat 122 then
      let run := rest.takeWhile isSchemeTail
      match rest.drop run.length with
      | ':' :: _ => some (c :: (run ++ [':']))
      | _ => none
    else none

/-- `SecurityUtils.sanitizeUrl` (source lines 689-745). -/
def sanitizeUrl (url : String) : String :=
  if url = "" then ""
  else
    let trimmed := jsTrim url.toList
    if trimmed.isEmpty then ""
    else
      match pctDecode trimmed with
      | none => ""
      | some decoded =>
        let normalized := jsTrim (decoded.map Char.toLower)
        let cleaned := stripEnds ctrlOrWs normalized
        if "javascript:".toList.isPrefixOf cleaned ∨ "data:".toList.isPrefixOf cleaned ∨
            "vbscript:".toList.isPrefixOf cleaned ∨ "file:".toList.isPrefixOf cleaned ∨
            "about:".toList.isPrefixOf cleaned then ""
        else
          match protocolOf cleaned with
          | some p =>
            if SAFE_PROTOCOLS.contains (String.mk p) then String.mk trimmed else ""
          | none => String.mk trimmed

end SecurityUtils

namespace MarkdownParser

/-- `MarkdownParser.escapeHtml` (source lines 998-1007).  Note the source's map
sends the apostrophe to `&#039` WITHOUT a terminating semicolon (line 1004),
unlike the sibling escape functions `SecurityUtils.escapeAttribute` and
`SyntaxHighlighter.escapeHtml`, which both emit `&#039;`. -/
def escChar (c : Char) : Chars :=
  if c = '&' then "&amp;".toList
  else if c = '<' then "&lt;".toList
  else if c = '>' then "&gt;".toList
  else if c = '"' then "&quot;".toList
  else if c.toNat = 39 then "&#039".toList
  else [c]

def escapeHtml (s : Chars) : Chars := (s.map escChar).flatten

/-- Per-call parser context (source lines 937-939): the code-block placeholder
map, plus the number of placeholders generated so far. -/
structure MdContext where
  codeBlocks : List (Chars × Chars)
  counter : Nat

/-- Modelled from the source's `generatePlaceholder` (lines 1019-1035): the
source draws `crypto.randomUUID()` and base64-encodes it (alphabet
`A-Z a-z 0-9 + /`, `=` stripped), so the opaque token never contains an
underscore, asterisk, backtick or other markdown metacharacter.  We model the
random token by the decimal digits of a per-call counter, which has the same
character-class property. -/
def tokenChars (n : Nat) : Chars := Nat.toDigits 10 n

def generatePlaceholder (prefixName : Chars) (n : Nat) : Chars :=
  "__".toList ++ prefixName ++ "_".toList ++ tokenChars n ++ "__".toList

/-- One match of ``/```([^\n]*)\n([\s\S]*?)```/``: three backticks, the rest of
that line as the language, then the (lazy) body up to the next three backticks. -/
def tryCode (s : Chars) : Option ((Chars × Chars) × Chars) :=
  if "```".toList.isPrefixOf s then
    match splitFirst ['\n'] (s.drop 3) with
    | some (lang, r) =>
      match splitFirst "```".toList r with
      | some (code, rest) => some ((lang, code), rest)
      | none => none
    | none => none
  else none

/-- `MarkdownParser.parseCodeBlocks` (source lines 1037-1047). -/
def parseCodeBlocks (s : Chars) (ctx : MdContext) : Chars × MdContext :=
  scanSt tryCode
    (fun lc c =>
      let placeholder := generatePlaceholder "CODE_BLOCK".toList c.counter
      let content := "<pre><code>".toList ++ jsTrim lc.2 ++ "</code></pre>".toList
      (placeholder, ⟨c.codeBlocks ++ [(placeholder, content)], c.counter + 1⟩))
    s.length s ctx

/-- `MarkdownParser.restoreCodeBlocks` (source lines 1049-1055): replace the
first occurrence of each stored placeholder, in insertion order. -/
def restoreCodeBlocks (s : Chars) (ctx : MdContext) : Chars :=
  ctx.codeBlocks.foldl (fun acc pc => replaceFirst pc.1 pc.2 acc) s

/-- A run-delimited inline pattern such as ``/`([^`]+)`/`` or `/\*\*([^*]+)\*\*/`:
`k` copies of `c`, a nonempty run of non-`c` characters, `k` more copies of `c`. -/
def tryRun (c : Char) (k : Nat) (s : Chars) : Option (Chars × Chars) :=
  if (List.replicate k c).isPrefixOf s then
    let t := s.drop k
    let content := t.takeWhile (· ≠ c)
    if content.isEmpty then none
    else
      let u := t.drop content.length
      if (List.replicate k c).isPrefixOf u then some (content, u.drop k) else none
  else none

def replaceRun (c : Char) (k : Nat) (opn cls : Chars) (s : Chars) : Chars :=
  scan0 (tryRun c k) (fun content => opn ++ content ++ cls) s.length s

/-- `MarkdownParser.parseInlineCode` (source lines 1057-1059). -/
def parseInlineCode (s : Chars) : Chars :=
  replaceRun backtickChar 1 "<code>".toList "</code>".toList s

/-- One match of `/^(#{1,6})\s+(.+)$/` at a line start: a run of 1-6 `#`
characters (a run of 7 or more never matches) followed by the `\s+(.+)$` tail. -/
def tryHeader (s : Chars) : Option ((Nat × Chars) × Chars) :=
  let r := (s.takeWhile (· = '#')).length
  if 1 ≤ r ∧ r ≤ 6 then
    match wsPlusCapture (s.drop r) with
    | some (content, rest) => some ((r, content), rest)
    | none => none
  else none

/-- `MarkdownParser.parseHeaders` (source lines 1061-1067): the callback emits
`<h{level}>` around the trimmed capture. -/
def parseHeaders (s : Chars) : Chars :=
  scanL tryHeader
    (fun rc =>
      let d := Nat.toDigits 10 rc.1
      "<h".toList ++ d ++ ">".toList ++ jsTrim rc.2 ++ "</h".toList ++ d ++ ">".toList)
    s.length true s

/-- One match of `/^---+$/` at a line start: three or more dashes followed by a
newline or the end of the text (the dashes alone are replaced). -/
def tryHr (s : Chars) : Option (Unit × Chars) :=
  let d := s.takeWhile (· = '-')
  if 3 ≤ d.length ∧ (s.drop d.length = [] ∨ (s.drop d.length).head? = some '\n') then
    some ((), s.drop d.length)
  else none

/-- `html.replace(/^---+$/gm, '<hr>')` (source line 956). -/
def parseHr (s : Chars) : Chars :=
  scanL tryHr (fun _ => "<hr>".toList) s.length true s

def bqWrap (acc : List Chars) : Chars :=
  "<blockquote>".toList ++ joinNl acc ++ "</blockquote>".toList

/-- The `lines.forEach` state machine of `parseBlockquotes`. -/
def bqGo : List Chars → Bool → List Chars → List Chars
  | [], false, _ => []
  | [], true, acc => [bqWrap acc]
  | l :: ls, inBq, acc =>
    if "> ".toList.isPrefixOf l then
      bqGo ls true ((if inBq then acc else []) ++ [l.drop 2])
    else
      (if inBq then [bqWrap acc] else []) ++ l :: bqGo ls false []

/-- `MarkdownParser.parseBlockquotes` (source lines 1069-1097): group maximal
runs of lines starting with the literal two characters `"> "`. -/
def parseBlockquotes (s : Chars) : Chars := joinNl (bqGo (splitNl s) false [])

/-- `line.match(/^[\*\-]\s+(.+)$/)`: capture 1, when the line matches. -/
def ulMatch (l : Chars) : Option Chars :=
  match l with
  | c :: t => if c = '*' ∨ c = '-' then (wsPlusCapture t).map (·.1) else none
  | [] => none

/-- `line.match(/^\d+\.\s+(.+)$/)`: capture 1, when the line matches. -/
def olMatch (l : Chars) : Option Chars :=
  let d := l.takeWhile Char.isDigit
  if d.isEmpty then none
  else
    match l.drop d.length with
    | '.' :: t => (wsPlusCapture t).map (·.1)
    | _ => none

def liWrap (c : Chars) : Chars := "<li>".toList ++ c ++ "</li>".toList

/-- The `lines.forEach` state machine of `parseLists`. -/
def listsGo : List Chars → Bool → Bool → List Chars
  | [], inUl, inOl =>
    (if inUl then ["</ul>".toList] else []) ++ (if inOl then ["</ol>".toList] else [])
  | l :: ls, inUl, inOl =>
    match ulMatch l with
    | some c =>
      (if inOl then ["</ol>".toList] else []) ++
        (if inUl then [] else ["<ul>".toList]) ++ liWrap c :: listsGo ls true false
    | none =>
      match olMatch l with
      | some c =>
        (if inUl then ["</ul>".toList] else []) ++
          (if inOl then [] else ["<ol>".toList]) ++ liWrap c :: listsGo ls false true
      | none =>
        (if inUl then ["</ul>".toList] else []) ++
          (if inOl then ["</ol>".toList] else []) ++ l :: listsGo ls false false

/-- `MarkdownParser.parseLists` (source lines 1099-1146). -/
def parseLists (s : Chars) : Chars := joinNl (listsGo (splitNl s) false false)

/-- One match of `/!\[([^\]]*)\]\(([^)]+)\)/`: image syntax with a possibly-empty
alt text (no `]` inside) and a nonempty url (no `)` inside). -/
def tryImage (s : Chars) : Option ((Chars × Chars) × Chars) :=
  match s with
  | '!' :: '[' :: t =>
    let alt := t.takeWhile (· ≠ ']')
    match t.drop alt.length with
    | ']' :: '(' :: u =>
      let url := u.takeWhile (· ≠ ')')
      if url.isEmpty then none
      else
        match u.drop url.length with
        | ')' :: rest => some ((alt, url), rest)
        | _ => none
    | _ => none
  | _ => none

/-- The image replacement callback (source lines 965-969): emit an `<img>` tag
only when `sanitizeUrl` accepted the url, otherwise the textual fallback. -/
def imageEmit (au : Chars × Chars) : Chars :=
  let safeUrl := SecurityUtils.sanitizeUrl (String.mk au.2)
  if safeUrl = "" then "<span>[Image: ".toList ++ au.1 ++ "]</span>".toList
  else
    "<img src=\"".toList ++ safeUrl.toList ++ "\" alt=\"".toList ++ au.1 ++ "\">".toList

def parseImages (s : Chars) : Chars := scan0 tryImage imageEmit s.length s

/-- One match of `/\[([^\]]+)\]\(([^)]+)\)/`: link syntax with nonempty text. -/
def tryLink (s : Chars) : Option ((Chars × Chars) × Chars) :=
  match s with
  | '[' :: t =>
    let txt := t.takeWhile (· ≠ ']')
    if txt.isEmpty then none
    else
      match t.drop txt.length with
      | ']' :: '(' :: u =>
        let url := u.takeWhile (· ≠ ')')
        if url.isEmpty then none
        else
          match u.drop url.length with
          | ')' :: rest => some ((txt, url), rest)
          | _ => none
      | _ => none
  | _ => none

/-- The link replacement callback (source lines 972-976). -/
def linkEmit (tu : Chars × Chars) : Chars :=
  let safeUrl := SecurityUtils.sanitizeUrl (String.mk tu.2)
  if safeUrl = "" then "<span>[".toList ++ tu.1 ++ "]</span>".toList
  else "<a href=\"".toList ++ safeUrl.toList ++ "\">".toList ++ tu.1 ++ "</a>".toList

def parseLinks (s : Chars) : Chars := scan0 tryLink linkEmit s.length s

/-- The `/^<\/?[a-zA-Z][a-zA-Z0-9]*/.test(trimmed)` check of `parseParagraphs`:
a `<`, an optional `/`, then an ASCII letter. -/
def htmlStartCheck : Chars → Bool
  | '<' :: '/' :: c :: _ => c.isAlpha
  | '<' :: c :: _ => c.isAlpha
  | _ => false

/-- One block of `parseParagraphs` (source lines 1150-1167). -/
def paraBlock (b : Chars) : Chars :=
  let trimmed := jsTrim b
  if trimmed.isEmpty then []
  else if htmlStartCheck trimmed then trimmed
  else if trimmed.contains '\n' && !htmlStartCheck trimmed then trimmed
  else "<p>".toList ++ trimmed ++ "</p>".toList

/-- `MarkdownParser.parseParagraphs` (source lines 1148-1169): split on blank
lines, process each block, rejoin. -/
def parseParagraphs (s : Chars) : Chars :=
  List.intercalate "\n\n".toList ((splitSeq "\n\n".toList s).map paraBlock)

/-- `MarkdownParser.parse` (source lines 933-996), the spec's `convertToHtml`:
the ordered pipeline over a fresh per-call context. -/
def parse (markdown : String) : String :=
  if markdown = "" then ""
  else
    let ctx : MdContext := ⟨[], 0⟩
    let html := escapeHtml markdown.toList
    let hc := parseCodeBlocks html ctx
    let html := parseInlineCode hc.1
    let html := parseHeaders html
    let html := parseHr html
    let html := parseBlockquotes html
    let html := parseLists html
    let html := parseImages html
    let html := parseLinks html
    let html := replaceRun '*' 3 "<strong><em>".toList "</em></strong>".toList html
    let html := replaceRun '*' 2 "<strong>".toList "</strong>".toList html
    let html := replaceRun '*' 1 "<em>".toList "</em>".toList html
    let html := replaceRun '_' 3 "<strong><em>".toList "</em></strong>".toList html
    let html := replaceRun '_' 2 "<strong>".toList "</strong>".toList html
    let html := replaceRun '_' 1 "<em>".toList "</em>".toList html
    let html := replaceRun '~' 2 "<del>".toList "</del>".toList html
    let html := parseParagraphs html
    let html := restoreCodeBlocks html hc.2
    String.mk html

end MarkdownParser

/-- The spec's name for the Converter entry point (`Editor.updatePreview` calls
`MarkdownParser.parse`). -/
def convertToHtml (markdown : String) : String := MarkdownParser.parse markdown

namespace SyntaxHighlighter

/-- `SyntaxHighlighter.escapeHtml` (source lines 1279-1288); unlike the parser's
copy, this one maps the apostrophe to `&#039;` with the semicolon. -/
def escChar (c : Char) : Chars :=
  if c = '&' then "&amp;".toList
  else if c = '<' then "&lt;".toList
  else if c = '>' then "&gt;".toList
  else if c = '"' then "&quot;".toList
  else if c.toNat = 39 then "&#039;".toList
  else [c]

def escapeHtml (s : Chars) : Chars := (s.map escChar).flatten

/-- Per-call highlighter context (source lines 1241-1243) plus the shared
`index` counter of `extractInlineFormats`: the list of extracted format spans,
in creation order. -/
structure HlContext where
  inlineFormats : List Chars
  index : Nat

/-- The literal (deterministic, index-based) placeholder the highlighter uses:
`` `__INLINE_FORMAT_${index}__` `` (source lines 1186, 1194, ...). -/
def hlPlaceholder (n : Nat) : Chars :=
  "__INLINE_FORMAT_".toList ++ Nat.toDigits 10 n ++ "__".toList

/-- One extraction pass of `extractInlineFormats`: run-delimited pattern
(`k` copies of `c`), each match replaced by the next placeholder while the
marker-wrapped styled span is pushed onto the context. -/
def extractPass (c : Char) (k : Nat) (cls : Chars) (s : Chars) (ctx : HlContext) :
    Chars × HlContext :=
  scanSt (MarkdownParser.tryRun c k)
    (fun content st =>
      let marker : Chars := List.replicate k c
      let span := "<span class=\"syntax-".toList ++ cls ++ "\">".toList ++
        marker ++ content ++ marker ++ "</span>".toList
      (hlPlaceholder st.index, ⟨st.inlineFormats ++ [span], st.index + 1⟩))
    s.length s ctx

/-- `SyntaxHighlighter.extractInlineFormats` (source lines 1181-1225): triple
asterisk, double asterisk, double underscore, single asterisk, single
underscore — in that order, sharing one index counter. -/
def extractInlineFormats (s : Chars) (ctx : HlContext) : Chars × HlContext :=
  let r1 := extractPass '*' 3 "bold".toList s ctx
  let r2 := extractPass '*' 2 "bold".toList r1.1 r1.2
  let r3 := extractPass '_' 2 "bold".toList r2.1 r2.2
  let r4 := extractPass '*' 1 "italic".toList r3.1 r3.2
  extractPass '_' 1 "italic".toList r4.1 r4.2

/-- `SyntaxHighlighter.restoreInlineFormats` (source lines 1230-1235): for each
stored span, replace the first occurrence of its placeholder. -/
def restoreInlineFormats (s : Chars) (ctx : HlContext) : Chars :=
  (ctx.inlineFormats.enum).foldl
    (fun acc p => replaceFirst (hlPlaceholder p.1) p.2 acc) s

/-- One match of ``/```([\s\S]*?)```/``: lazy, so the body is everything up to
the nearest further three backticks (possibly empty). -/
def tryHlCode (s : Chars) : Option (Chars × Chars) :=
  if "```".toList.isPrefixOf s then
    match splitFirst "```".toList (s.drop 3) with
    | some (content, rest) => some (content, rest)
    | none => none
  else none

def hlCodeBlocks (s : Chars) : Chars :=
  scan0 tryHlCode
    (fun content =>
      "<span class=\"syntax-code-block\">```".toList ++ content ++
        "```</span>".toList)
    s.length s

def hlInlineCode (s : Chars) : Chars :=
  scan0 (MarkdownParser.tryRun backtickChar 1)
    (fun content => "<span class=\"syntax-code\">`".toList ++ content ++ "`</span>".toList)
    s.length s

/-- Header highlighting `/^(#{1,6})\s+(.+)$/gm` with replacement
`<span class="syntax-header">$1 $2</span>` — note the consumed whitespace run is
replaced by a single space. -/
def hlHeaders (s : Chars) : Chars :=
  scanL MarkdownParser.tryHeader
    (fun rc =>
      "<span class=\"syntax-header\">".toList ++ List.replicate rc.1 '#' ++
        " ".toList ++ rc.2 ++ "</span>".toList)
    s.length true s

/-- One match of `/!?\[([^\]]*)\]\(([^)]+)\)/`, capturing the whole match `$&`. -/
def tryHlLink (s : Chars) : Option (Chars × Chars) :=
  let bracket : Chars → Option (Chars × Chars) := fun t =>
    match t with
    | '[' :: u =>
      let alt := u.takeWhile (· ≠ ']')
      match u.drop alt.length with
      | ']' :: '(' :: v =>
        let url := v.takeWhile (· ≠ ')')
        if url.isEmpty then none
        else
          match v.drop url.length with
          | ')' :: rest =>
            some ('[' :: (alt ++ "](".toList ++ url ++ ")".toList), rest)
          | _ => none
      | _ => none
    | _ => none
  match s with
  | '!' :: t =>
    match bracket t with
    | some (m, rest) => some ('!' :: m, rest)
    | none => bracket s
  | _ => bracket s

def hlLinks (s : Chars) : Chars :=
  scan0 tryHlLink
    (fun m => "<span class=\"syntax-link\">".toList ++ m ++ "</span>".toList)
    s.length s

/-- One match of `/^([\*\-]|\d+\.)\s+/` at a line start: a list marker and the
following whitespace run (which `\s` lets run across newlines). -/
def tryHlList (s : Chars) : Option (Chars × Chars) :=
  let marker : Option (Chars × Chars) :=
    match s with
    | '*' :: t => some (['*'], t)
    | '-' :: t => some (['-'], t)
    | _ =>
      let d := s.takeWhile Char.isDigit
      if d.isEmpty then none
      else
        match s.drop d.length with
        | '.' :: t => some (d ++ ['.'], t)
        | _ => none
  match marker with
  | some (m, t) =>
    let w := t.takeWhile jsWs
    if w.isEmpty then none else some (m, t.drop w.length)
  | none => none

/-- List-marker highlighting, replacement `<span class="syntax-list">$1 </span>`. -/
def hlLists (s : Chars) : Chars :=
  scanL tryHlList
    (fun m => "<span class=\"syntax-list\">".toList ++ m ++ " </span>".toList)
    s.length true s

/-- One match of `/^(&gt;)\s+/` at a line start. -/
def tryHlQuote (s : Chars) : Option (Unit × Chars) :=
  if "&gt;".toList.isPrefixOf s then
    let t := s.drop 4
    let w := t.takeWhile jsWs
    if w.isEmpty then none else some ((), t.drop w.length)
  else none

/-- Blockquote-marker highlighting, replacement `<span class="syntax-quote">&gt; </span>`. -/
def hlQuotes (s : Chars) : Chars :=
  scanL tryHlQuote
    (fun _ => "<span class=\"syntax-quote\">&gt; </span>".toList)
    s.length true s

/-- `SyntaxHighlighter.highlight` (source lines 1237-1277). -/
def highlight (text : String) : String :=
  if text = "" then ""
  else
    let ctx : HlContext := ⟨[], 0⟩
    let t := escapeHtml text.toList
    let tc := extractInlineFormats t ctx
    let t := hlCodeBlocks tc.1
    let t := hlInlineCode t
    let t := hlHeaders t
    let t := hlLinks t
    let t := hlLists t
    let t := hlQuotes t
    let t := restoreInlineFormats t tc.2
    String.mk t

end SyntaxHighlighter

/-- String-level substring test used in theorem statements. -/
def containsSubstr (pat s : String) : Bool := containsSeq pat.toList s.toList

theorem takeWhile_append_stop (p : Char → Bool) (l : Chars) (x : Char) (r : Chars)
    (hl : l.all p = true) (hx : p x = false) :
    (l ++ x :: r).takeWhile p = l := by
  induction l with
  | nil => simp [List.takeWhile_cons, hx]
  | cons a as ih =>
    simp only [List.all_cons, Bool.and_eq_true] at hl
    simp [List.takeWhile_cons, hl.1, ih hl.2]

theorem tryImage_exact (alt url : Chars) (halt : alt.all (· ≠ ']') = true)
    (hne : url ≠ []) (hurl : url.all (· ≠ ')') = true) :
    MarkdownParser.tryImage ('!' :: '[' :: (alt ++ ']' :: '(' :: (url ++ [')']))) =
      some ((alt, url), []) := by
  have h1 : (alt ++ ']' :: '(' :: (url ++ [')'])).takeWhile (· ≠ ']') = alt :=
    takeWhile_append_stop _ _ _ _ halt (by decide)
  have h2 : (url ++ [')']).takeWhile (· ≠ ')') = url :=
    takeWhile_append_stop _ _ _ _ hurl (by decide)
  have hne' : url.isEmpty = false := by
    cases url with
    | nil => exact absurd rfl hne
    | cons a as => rfl
  simp only [MarkdownParser.tryImage, h1, h2, hne', List.drop_left]
  simp [List.drop_left]

theorem tryLink_exact (txt url : Chars) (htne : txt ≠ []) (htxt : txt.all (· ≠ ']') = true)
    (hne : url ≠ []) (hurl : url.all (· ≠ ')') = true) :
    MarkdownParser.tryLink ('[' :: (txt ++ ']' :: '(' :: (url ++ [')']))) =
      some ((txt, url), []) := by
  have h1 : (txt ++ ']' :: '(' :: (url ++ [')'])).takeWhile (· ≠ ']') = txt :=
    takeWhile_append_stop _ _ _ _ htxt (by decide)
  have h2 : (url ++ [')']).takeWhile (· ≠ ')') = url :=
    takeWhile_append_stop _ _ _ _ hurl (by decide)
  have htne' : txt.isEmpty = false := by
    cases txt with
    | nil => exact absurd rfl htne
    | cons a as => rfl
  have hne' : url.isEmpty = false := by
    cases url with
    | nil => exact absurd rfl hne
    | cons a as => rfl
  simp only [MarkdownParser.tryLink, h1, h2, htne', hne', List.drop_left]
  simp [List.drop_left]

theorem parseImages_exact (alt url : Chars) (halt : alt.all (· ≠ ']') = true)
    (hne : url ≠ []) (hurl : url.all (· ≠ ')') = true) :
    MarkdownParser.parseImages ('!' :: '[' :: (alt ++ ']' :: '(' :: (url ++ [')']))) =
      MarkdownParser.imageEmit (alt, url) := by
  have h := tryImage_exact alt url halt hne hurl
  unfold MarkdownParser.parseImages
  simp only [List.length_cons]
  rw [scan0]
  simp [h, scan0]

theorem parseLinks_exact (txt url : Chars) (htne : txt ≠ []) (htxt : txt.all (· ≠ ']') = true)
    (hne : url ≠ []) (hurl : url.all (· ≠ ')') = true) :
    MarkdownParser.parseLinks ('[' :: (txt ++ ']' :: '(' :: (url ++ [')']))) =
      MarkdownParser.linkEmit (txt, url) := by
  have h := tryLink_exact txt url htne htxt hne hurl
  unfold MarkdownParser.parseLinks
  simp only [List.length_cons]
  rw [scan0]
  simp [h, scan0]

theorem dropWhile_sandwich (p : Char → Bool) (pre u post : Chars)
    (hu : ∃ a t, u = a :: t ∧ p a = false) :
    (pre ++ u ++ post).dropWhile p = pre.dropWhile p ++ u ++ post := by
  obtain ⟨a, t, rfl, ha⟩ := hu
  induction pre with
  | nil => simp [List.dropWhile_cons, ha]
  | cons x xs ih =>
    simp only [List.cons_append, List.dropWhile_cons]
    split <;> simp_all

theorem stripEnds_sandwich (p : Char → Bool) (pre u post : Chars) (hu : u ≠ [])
    (hU : ∀ c ∈ u, p c = false) :
    stripEnds p (pre ++ u ++ post) =
      pre.dropWhile p ++ u ++ (post.reverse.dropWhile p).reverse := by
  obtain ⟨a, t, rfl⟩ : ∃ a t, u = a :: t := by
    cases u with
    | nil => exact absurd rfl hu
    | cons a t => exact ⟨a, t, rfl⟩
  unfold stripEnds
  rw [dropWhile_sandwich p pre _ post ⟨a, t, rfl, hU a (by simp)⟩]
  have hrev : (pre.dropWhile p ++ (a :: t) ++ post).reverse =
      post.reverse ++ (a :: t).reverse ++ (pre.dropWhile p).reverse := by
    simp [List.reverse_append, List.append_assoc]
  rw [hrev]
  have hlast : ∃ b s, (a :: t).reverse = b :: s ∧ p b = false := by
    have hne : (a :: t).reverse ≠ [] := by simp
    cases hrv : (a :: t).reverse with
    | nil => exact absurd hrv hne
    | cons b s =>
      refine ⟨b, s, rfl, hU b ?_⟩
      have hb : b ∈ (a :: t).reverse := by rw [hrv]; simp
      exact List.mem_reverse.mp hb
  rw [dropWhile_sandwich p post.reverse _ (pre.dropWhile p).reverse hlast]
  simp [List.reverse_append, List.append_assoc]

theorem stripEnds_exact (p : Char → Bool) (pre u post : Chars) (hu : u ≠ [])
    (hU : ∀ c ∈ u, p c = false)
    (hpre : ∀ c ∈ pre, p c = true) (hpost : ∀ c ∈ post, p c = true) :
    stripEnds p (pre ++ u ++ post) = u := by
  rw [stripEnds_sandwich p pre u post hu hU]
  rw [List.dropWhile_eq_nil_iff.mpr (fun x hx => by simp [hpre x hx])]
  rw [List.dropWhile_eq_nil_iff.mpr
    (fun x hx => by simp [hpost x (List.mem_reverse.mp hx)])]
  simp

theorem pctByte_not_pct (c : Char) (cs : Chars) (h : c ≠ '%') :
    SecurityUtils.pctByte (c :: cs) = none := by
  rw [SecurityUtils.pctByte.eq_def]
  split
  · next h1 h2 r heq =>
    have hc : c = '%' := by
      have := congrArg List.head? heq
      simpa using this
    exact absurd hc h
  · rfl

theorem pctDecodeGo_no_pct (s : Chars) (h : ∀ c ∈ s, c ≠ '%') :
    SecurityUtils.pctDecodeGo s.length s = some s := by
  induction s with
  | nil => rfl
  | cons c cs ih =>
    have hc : c ≠ '%' := h c (by simp)
    have ih' := ih (fun x hx => h x (by simp [hx]))
    simp [List.length_cons, SecurityUtils.pctDecodeGo, pctByte_not_pct c cs hc, hc, ih']

/-- Decoding a string with no percent character is the identity (every literal
character passes through `decodeURIComponent` unchanged). -/
theorem pctDecode_no_pct (s : Chars) (h : ∀ c ∈ s, c ≠ '%') :
    SecurityUtils.pctDecode s = some s := pctDecodeGo_no_pct s h

theorem toLower_eq_self (c : Char) (h : ¬(65 ≤ c.toNat ∧ c.toNat ≤ 90)) :
    Char.toLower c = c := by
  simp only [Char.toLower]
  rw [if_neg (fun hh => h ⟨hh.1, hh.2⟩)]

theorem ctrlOrWs_upper_false (c : Char) (h : 65 ≤ c.toNat ∧ c.toNat ≤ 90) :
    SecurityUtils.ctrlOrWs c = false := by
  apply Bool.eq_false_iff.mpr
  intro hex
  simp only [SecurityUtils.ctrlOrWs, jsWs, Bool.or_eq_true, Bool.and_eq_true,
    beq_iff_eq, Nat.ble_eq] at hex
  omega

theorem ctrl_not_upper (c : Char) (h : SecurityUtils.ctrlOrWs c = true) :
    ¬(65 ≤ c.toNat ∧ c.toNat ≤ 90) := by
  intro hA
  rw [ctrlOrWs_upper_false c hA] at h
  exact Bool.false_ne_true h

theorem jsWs_false_of_ctrlOrWs (c : Char) (h : SecurityUtils.ctrlOrWs c = false) :
    jsWs c = false := by
  simp only [SecurityUtils.ctrlOrWs, Bool.or_eq_false_iff] at h
  exact h.1.1

theorem ctrlOrWs_ne_pct (c : Char) (h : SecurityUtils.ctrlOrWs c = true) : c ≠ '%' := by
  intro he
  subst he
  exact absurd h (by decide)

/-- Characters of any letter-case variant of a clean (printable, percent-free)
string are themselves clean: `Char.toLower` only moves `A-Z` to `a-z`, and those
source characters are neither whitespace/control nor `%`. -/
theorem map_toLower_mem_props (u L : Chars) (hmap : u.map Char.toLower = L)
    (hL : ∀ c ∈ L, SecurityUtils.ctrlOrWs c = false ∧ c ≠ '%') :
    ∀ c ∈ u, SecurityUtils.ctrlOrWs c = false ∧ c ≠ '%' := by
  intro c hc
  have hmem : Char.toLower c ∈ L := by
    rw [← hmap]
    exact List.mem_map_of_mem _ hc
  have hLc := hL _ hmem
  by_cases hA : 65 ≤ c.toNat ∧ c.toNat ≤ 90
  · refine ⟨ctrlOrWs_upper_false c hA, fun he => ?_⟩
    subst he
    exact absurd hA (by decide)
  · rw [toLower_eq_self c hA] at hLc
    exact hLc

theorem map_toLower_fixed (l : Chars) (h : ∀ c ∈ l, SecurityUtils.ctrlOrWs c = true) :
    l.map Char.toLower = l := by
  induction l with
  | nil => rfl
  | cons a t ih =>
    have ha : Char.toLower a = a := toLower_eq_self a (ctrl_not_upper a (h a (by simp)))
    simp [ha, ih (fun c hc => h c (by simp [hc]))]

/-- Evaluation of `sanitizeUrl` through its deny branch: when the input is
non-empty, its trim is non-empty, decoding succeeds, and the cleaned decoded
form starts with a deny-listed protocol, the result is `""`. -/
theorem sanitizeUrl_eval_denied (url : String) (dec : Chars)
    (h1 : ¬ url = "")
    (h2 : (jsTrim url.toList).isEmpty = false)
    (h3 : SecurityUtils.pctDecode (jsTrim url.toList) = some dec)
    (h4 : "javascript:".toList.isPrefixOf
        (stripEnds SecurityUtils.ctrlOrWs (jsTrim (dec.map Char.toLower))) ∨
      "data:".toList.isPrefixOf
        (stripEnds SecurityUtils.ctrlOrWs (jsTrim (dec.map Char.toLower))) ∨
      "vbscript:".toList.isPrefixOf
        (stripEnds SecurityUtils.ctrlOrWs (jsTrim (dec.map Char.toLower))) ∨
      "file:".toList.isPrefixOf
        (stripEnds SecurityUtils.ctrlOrWs (jsTrim (dec.map Char.toLower))) ∨
      "about:".toList.isPrefixOf
        (stripEnds SecurityUtils.ctrlOrWs (jsTrim (dec.map Char.toLower)))) :
    SecurityUtils.sanitizeUrl url = "" := by
  unfold SecurityUtils.sanitizeUrl
  rw [if_neg h1]
  simp only [h2, h3, Bool.false_eq_true, if_false]
  rw [if_pos h4]

/-- Any input of the form `pre ++ u ++ post`, where `u` is an arbitrary
letter-case variant of a percent-free lowercase URL `L` starting with a
deny-listed protocol and `pre`/`post` are arbitrary runs of whitespace or
control characters, is rejected by `sanitizeUrl`: the paddings survive trimming
and decoding only to be stripped by the control/whitespace cleaning of the
normalized form, whose cleaned value is exactly `L`. -/
theorem sanitize_denies_padded (L u pre post : Chars)
    (hL0 : L ≠ [])
    (hL : ∀ c ∈ L, SecurityUtils.ctrlOrWs c = false ∧ c ≠ '%')
    (hmap : u.map Char.toLower = L)
    (hpre : ∀ c ∈ pre, SecurityUtils.ctrlOrWs c = true)
    (hpost : ∀ c ∈ post, SecurityUtils.ctrlOrWs c = true)
    (hden : "javascript:".toList.isPrefixOf L ∨ "data:".toList.isPrefixOf L ∨
      "vbscript:".toList.isPrefixOf L ∨ "file:".toList.isPrefixOf L ∨
      "about:".toList.isPrefixOf L) :
    SecurityUtils.sanitizeUrl (String.mk (pre ++ u ++ post)) = "" := by
  have hU := map_toLower_mem_props u L hmap hL
  have hu0 : u ≠ [] := by
    intro h
    subst h
    exact hL0 hmap.symm
  have hTL : (String.mk (pre ++ u ++ post)).toList = pre ++ u ++ post := rfl
  set pre1 := pre.dropWhile jsWs with hpre1def
  set post1 := (post.reverse.dropWhile jsWs).reverse with hpost1def
  have hpre1 : ∀ c ∈ pre1, SecurityUtils.ctrlOrWs c = true :=
    fun c hc => hpre c (List.dropWhile_subset _ hc)
  have hpost1 : ∀ c ∈ post1, SecurityUtils.ctrlOrWs c = true := by
    intro c hc
    rw [hpost1def, List.mem_reverse] at hc
    exact hpost c (List.mem_reverse.mp (List.dropWhile_subset _ hc))
  have htrim : jsTrim (pre ++ u ++ post) = pre1 ++ u ++ post1 :=
    stripEnds_sandwich jsWs pre u post hu0
      (fun c hc => jsWs_false_of_ctrlOrWs c (hU c hc).1)
  have h1 : ¬ String.mk (pre ++ u ++ post) = "" := by
    intro h
    have hd := congrArg String.data h
    simp at hd
    exact hu0 hd.2.1
  have h2 : (jsTrim (String.mk (pre ++ u ++ post)).toList).isEmpty = false := by
    rw [hTL, htrim]
    simp [hu0]
  have h3 : SecurityUtils.pctDecode (jsTrim (String.mk (pre ++ u ++ post)).toList) =
      some (pre1 ++ u ++ post1) := by
    rw [hTL, htrim]
    apply pctDecode_no_pct
    intro c hc
    rcases List.mem_append.mp hc with hc1 | hc2
    · rcases List.mem_append.mp hc1 with hc3 | hc4
      · exact ctrlOrWs_ne_pct c (hpre1 c hc3)
      · exact (hU c hc4).2
    · exact ctrlOrWs_ne_pct c (hpost1 c hc2)
  have hmapdec : (pre1 ++ u ++ post1).map Char.toLower = pre1 ++ L ++ post1 := by
    simp only [List.map_append]
    rw [map_toLower_fixed pre1 hpre1, map_toLower_fixed post1 hpost1, hmap]
  have hLws : ∀ c ∈ L, jsWs c = false :=
    fun c hc => jsWs_false_of_ctrlOrWs c (hL c hc).1
  set pre2 := pre1.dropWhile jsWs with hpre2def
  set post2 := (post1.reverse.dropWhile jsWs).reverse with hpost2def
  have hpre2 : ∀ c ∈ pre2, SecurityUtils.ctrlOrWs c = true :=
    fun c hc => hpre1 c (List.dropWhile_subset _ hc)
  have hpost2 : ∀ c ∈ post2, SecurityUtils.ctrlOrWs c = true := by
    intro c hc
    rw [hpost2def, List.mem_reverse] at hc
    exact hpost1 c (List.mem_reverse.mp (List.dropWhile_subset _ hc))
  have htrim2 : jsTrim (pre1 ++ L ++ post1) = pre2 ++ L ++ post2 :=
    stripEnds_sandwich jsWs pre1 L post1 hL0 hLws
  have hclean : stripEnds SecurityUtils.ctrlOrWs
      (jsTrim ((pre1 ++ u ++ post1).map Char.toLower)) = L := by
    rw [hmapdec, htrim2]
    exact stripEnds_exact SecurityUtils.ctrlOrWs pre2 L post2 hL0
      (fun c hc => (hL c hc).1) hpre2 hpost2
  apply sanitizeUrl_eval_denied _ (pre1 ++ u ++ post1) h1 h2 h3
  rw [hclean]
  exact hden

/-- C1: the allow-list half of the protocol-whitelist claim holds: for each of
the five safe schemes, `sanitizeUrl (scheme ++ "://x")` returns the (trimmed)
input unchanged and non-empty.  The deny half fails as stated: the source strips
whitespace and control characters only at the two ENDS of the decoded URL
(source line 715), so a dangerous scheme with a whitespace or control character
embedded inside the scheme name is not recognized and the URL is returned
unchanged — this closed counterexample shows `sanitizeUrl` accepting a
tab-split `javascript:` URL. -/
theorem c1_counterexample :
    SecurityUtils.sanitizeUrl "java\tscript:alert(1)" = "java\tscript:alert(1)" ∧
    ("java\tscript:alert(1)" : String) ≠ "" := by decide

/-- C1 (amended): for every scheme in {http, https, mailto, ftp, ftps},
`sanitize(scheme ++ "://x")` returns the trimmed input, non-empty; for every
scheme in {javascript, data, vbscript, file, about}, `sanitize` returns `""` on
EVERY letter-case variant of `scheme:alert(1)` padded with ARBITRARY runs of
whitespace or control characters at the start and end of the URL; but a
whitespace or control character embedded INSIDE the scheme name is not stripped,
and such a URL is accepted and returned unchanged. -/
theorem c1_protocol_whitelist_amended :
    (∀ s ∈ ["http", "https", "mailto", "ftp", "ftps"],
      SecurityUtils.sanitizeUrl (s ++ "://x") = s ++ "://x" ∧ s ++ "://x" ≠ "") ∧
    (∀ d ∈ ["javascript", "data", "vbscript", "file", "about"],
      ∀ u pre post : Chars,
        u.map Char.toLower = (d ++ ":alert(1)").toList →
        (∀ c ∈ pre, SecurityUtils.ctrlOrWs c = true) →
        (∀ c ∈ post, SecurityUtils.ctrlOrWs c = true) →
        SecurityUtils.sanitizeUrl (String.mk (pre ++ u ++ post)) = "") ∧
    SecurityUtils.sanitizeUrl "java\tscript:alert(1)" = "java\tscript:alert(1)" := by
  refine ⟨?_, ?_, by decide⟩
  · intro s hs
    fin_cases hs <;> exact ⟨by decide, by decide⟩
  · intro d hd u pre post hmap hpre hpost
    fin_cases hd
    · exact sanitize_denies_padded _ u pre post (by decide) (by decide) hmap hpre hpost
        (Or.inl (by decide))
    · exact sanitize_denies_padded _ u pre post (by decide) (by decide) hmap hpre hpost
        (Or.inr (Or.inl (by decide)))
    · exact sanitize_denies_padded _ u pre post (by decide) (by decide) hmap hpre hpost
        (Or.inr (Or.inr (Or.inl (by decide))))
    · exact sanitize_denies_padded _ u pre post (by decide) (by decide) hmap hpre hpost
        (Or.inr (Or.inr (Or.inr (Or.inl (by decide)))))
    · exact sanitize_denies_padded _ u pre post (by decide) (by decide) hmap hpre hpost
        (Or.inr (Or.inr (Or.inr (Or.inr (by decide)))))

theorem c1_protocol_whitelist_amended_witness :
    (("javascript" : String) ∈ ["javascript", "data", "vbscript", "file", "about"] ∧
      "JaVaScRiPt:alert(1)".toList.map Char.toLower =
        (("javascript" : String) ++ ":alert(1)").toList ∧
      SecurityUtils.sanitizeUrl
        (String.mk ([' ', '\t'] ++ "JaVaScRiPt:alert(1)".toList ++ ['\x00'])) = "") ∧
    (("http" : String) ∈ ["http", "https", "mailto", "ftp", "ftps"] ∧
      SecurityUtils.sanitizeUrl "http://x" = "http://x") :=
  ⟨⟨by decide, by decide,
    c1_protocol_whitelist_amended.2.1 "javascript" (by decide)
      "JaVaScRiPt:alert(1)".toList [' ', '\t'] ['\x00']
      (by decide) (by decide) (by decide)⟩,
   ⟨by decide, (c1_protocol_whitelist_amended.1 "http" (by decide)).1⟩⟩

/-- C2: refuted on the code.  In `highlight`, the double-asterisk extraction
pass replaces `**y**` by the placeholder `__INLINE_FORMAT_0__`, and the later
single-underscore extraction pass then matches `_INLINE_` and `_0_` INSIDE that
placeholder, destroying it.  The stored bold span is therefore never substituted
back (zero times, not exactly once), and placeholder fragments leak into the
returned string. -/
theorem c2_placeholder_restoration_violated :
    SyntaxHighlighter.highlight "**y**" =
      "_<span class=\"syntax-italic\">_INLINE_</span>FORMAT<span class=\"syntax-italic\">_0_</span>_" ∧
    containsSubstr "<span class=\"syntax-bold\">**y**</span>"
      (SyntaxHighlighter.highlight "**y**") = false ∧
    containsSubstr "_INLINE_" (SyntaxHighlighter.highlight "**y**") = true := by decide

/-- C3: refuted on the code.  The code-block placeholder `__CODE_BLOCK_<tok>__`
is mangled by the single-underscore italic pass (`_CODE_` and `_<tok>_` match),
so it is never restored: `convertToHtml` of a fenced block containing `hello`
returns a paragraph of placeholder fragments that contains neither `hello` nor
any `<pre><code>` element. -/
theorem c3_code_fence_roundtrip_violated :
    convertToHtml "```\nhello\n```" = "<p>_<em>CODE</em>BLOCK<em>0</em>_</p>" ∧
    containsSubstr "hello" (convertToHtml "```\nhello\n```") = false ∧
    containsSubstr "<pre><code>" (convertToHtml "```\nhello\n```") = false := by decide

/-- C4: `sanitizeUrl` judges safety on the percent-decoded form —
`sanitize("javascript%3Aalert(1)")` returns `""` — and is total: whenever
decoding the trimmed input fails (`decodeURIComponent` would throw), it returns
`""` instead of propagating an error. -/
theorem c4_decoded_judgment_total :
    SecurityUtils.sanitizeUrl "javascript%3Aalert(1)" = "" ∧
    (∀ url : String, SecurityUtils.pctDecode (jsTrim url.toList) = none →
      SecurityUtils.sanitizeUrl url = "") := by
  constructor
  · decide
  · intro url h
    unfold SecurityUtils.sanitizeUrl
    split
    · rfl
    · simp only [h]
      split <;> rfl

theorem c4_decoded_judgment_total_witness :
    SecurityUtils.pctDecode (jsTrim "%zz".toList) = none ∧
    SecurityUtils.sanitizeUrl "%zz" = "" :=
  ⟨by decide, c4_decoded_judgment_total.2 "%zz" (by decide)⟩

/-- C5: for every image `![alt](url)` and link `[text](url)` match, the emitted
`src`/`href` attribute value is exactly the non-empty string `sanitizeUrl`
returned; when `sanitizeUrl` rejects the url (returns `""`), the textual
fallback `<span>[Image: alt]</span>` / `<span>[text]</span>` is emitted instead
of a tag, so no attribute value is built from unsanitized input.  The last two
conjuncts witness the same policy through the full `convertToHtml` pipeline. -/
theorem c5_sanitize_or_fallback (alt txt url : Chars)
    (halt : alt.all (· ≠ ']') = true)
    (htxt : txt ≠ [] ∧ txt.all (· ≠ ']') = true)
    (hurl : url ≠ [] ∧ url.all (· ≠ ')') = true) :
    (MarkdownParser.parseImages ('!' :: '[' :: (alt ++ ']' :: '(' :: (url ++ [')']))) =
      if SecurityUtils.sanitizeUrl (String.mk url) = ""
      then "<span>[Image: ".toList ++ alt ++ "]</span>".toList
      else "<img src=\"".toList ++ (SecurityUtils.sanitizeUrl (String.mk url)).toList ++
        "\" alt=\"".toList ++ alt ++ "\">".toList) ∧
    (MarkdownParser.parseLinks ('[' :: (txt ++ ']' :: '(' :: (url ++ [')']))) =
      if SecurityUtils.sanitizeUrl (String.mk url) = ""
      then "<span>[".toList ++ txt ++ "]</span>".toList
      else "<a href=\"".toList ++ (SecurityUtils.sanitizeUrl (String.mk url)).toList ++
        "\">".toList ++ txt ++ "</a>".toList) ∧
    convertToHtml "![a](javascript:x)" = "<span>[Image: a]</span>" ∧
    convertToHtml "[t](http://x)" = "<a href=\"http://x\">t</a>" := by
  refine ⟨?_, ?_, by decide, by decide⟩
  · rw [parseImages_exact alt url halt hurl.1 hurl.2]
    simp [MarkdownParser.imageEmit]
  · rw [parseLinks_exact txt url htxt.1 htxt.2 hurl.1 hurl.2]
    simp [MarkdownParser.linkEmit]

theorem c5_sanitize_or_fallback_witness :
    ("a".toList.all (· ≠ ']') = true) ∧
    ("javascript:u".toList ≠ [] ∧ "javascript:u".toList.all (· ≠ ')') = true) ∧
    (MarkdownParser.parseImages
        ('!' :: '[' :: ("a".toList ++ ']' :: '(' :: ("javascript:u".toList ++ [')']))) =
      if SecurityUtils.sanitizeUrl (String.mk "javascript:u".toList) = ""
      then "<span>[Image: ".toList ++ "a".toList ++ "]</span>".toList
      else "<img src=\"".toList ++
        (SecurityUtils.sanitizeUrl (String.mk "javascript:u".toList)).toList ++
        "\" alt=\"".toList ++ "a".toList ++ "\">".toList) :=
  ⟨by decide, ⟨by decide, by decide⟩,
    (c5_sanitize_or_fallback "a".toList "t".toList "javascript:u".toList (by decide)
      ⟨by decide, by decide⟩ ⟨by decide, by decide⟩).1⟩

/-- C6: the first pipeline step does escape all five metacharacters, but the
parser's map sends the apostrophe to `&#039` WITHOUT the terminating semicolon
(source line 1004), contradicting the claim's `&#039;`; the sibling
`SyntaxHighlighter.escapeHtml` emits the correct `&#039;`, showing the missing
semicolon is a slip.  The other four metacharacters map as claimed. -/
theorem c6_escape_apostrophe_entity :
    String.mk (MarkdownParser.escapeHtml [Char.ofNat 39]) = "&#039" ∧
    String.mk (MarkdownParser.escapeHtml [Char.ofNat 39]) ≠ "&#039;" ∧
    String.mk (MarkdownParser.escapeHtml "&<>\"".toList) = "&amp;&lt;&gt;&quot;" ∧
    String.mk (SyntaxHighlighter.escapeHtml [Char.ofNat 39]) = "&#039;" := by decide

/-- C7: refuted on the code as integrated.  `parse` escapes `>` to `&gt;`
BEFORE `parseBlockquotes` runs, so no line of user text ever starts with the
literal `"> "` that `parseBlockquotes` looks for: `convertToHtml` never produces
a `<blockquote>` from `"> "`-prefixed markdown.  In isolation (on unescaped
text) the pass does group and strip as the claim describes. -/
theorem c7_blockquote_grouping_violated :
    convertToHtml "> hi" = "<p>&gt; hi</p>" ∧
    containsSubstr "<blockquote>" (convertToHtml "> a\n> b\nc") = false ∧
    String.mk (MarkdownParser.parseBlockquotes "> a\n> b\nc".toList) =
      "<blockquote>a\nb</blockquote>\nc" := by decide

/-- C8: refuted on the code.  `parse` escapes the user's `<` to `&lt;` before
`parseParagraphs` runs, so a user block `<div>x</div>` reaches the paragraph
pass as `&lt;div&gt;x&lt;/div&gt;`, fails the HTML-tag check, and IS wrapped in
`<p>` — even though the check itself (second and third conjuncts) would pass the
raw block through unwrapped. -/
theorem c8_html_passthrough_violated :
    convertToHtml "<div>x</div>" = "<p>&lt;div&gt;x&lt;/div&gt;</p>" ∧
    MarkdownParser.htmlStartCheck "<div>x</div>".toList = true ∧
    String.mk (MarkdownParser.paraBlock "<div>x</div>".toList) = "<div>x</div>" := by decide

/-- C9: refuted on the code.  `highlight "**bold**"` loses the characters
`bold` entirely (the placeholder holding the span that contains them is
destroyed by the single-underscore pass before restoration), so the output does
not preserve every original character. -/
theorem c9_highlight_preservation_violated :
    SyntaxHighlighter.highlight "**bold**" =
      "_<span class=\"syntax-italic\">_INLINE_</span>FORMAT<span class=\"syntax-italic\">_0_</span>_" ∧
    containsSubstr "bold" (SyntaxHighlighter.highlight "**bold**") = false := by decide

/-- C10: `sanitizeUrl` percent-decodes exactly once, so the doubly-encoded
`javascript%253Aalert(1)` is accepted and returned unchanged: its single decode
is `javascript%3Aalert(1)` (third conjunct), which matches no deny-list prefix
and has no `scheme:` prefix — while the singly-encoded form itself is rejected
(fourth conjunct). -/
theorem c10_double_encoding_passes :
    SecurityUtils.sanitizeUrl "javascript%253Aalert(1)" = "javascript%253Aalert(1)" ∧
    ("javascript%253Aalert(1)" : String) ≠ "" ∧
    SecurityUtils.pctDecode "javascript%253Aalert(1)".toList =
      some "javascript%3Aalert(1)".toList ∧
    SecurityUtils.sanitizeUrl "javascript%3Aalert(1)" = "" := by decide
